import Mathlib

/-!
Verification of the doc-string normalization logic of
`galaxy_importer/loaders/doc_string.py` (class `DocStringLoader`).

The payloads handled by the loader are JSON values deserialized from the
output of `ansible-doc --json`; we embed them as an inductive `Json` type.
Python `dict`s (which preserve insertion order and have unique keys) are
modelled as association lists `List (String × Json)`; key-uniqueness, which
holds for every real `dict`, appears as a `keysNodup` hypothesis where a
statement depends on it.
-/

set_option autoImplicit false

namespace DocString

/-- A JSON-deserialized Python value: `None`, `bool`, number, `str`,
`list`, or `dict` (insertion-ordered, modelled as an association list). -/
inductive Json where
  | null : Json
  | bool : Bool → Json
  | num : Int → Json
  | str : String → Json
  | arr : List Json → Json
  | obj : List (String × Json) → Json

/-- `isinstance(v, dict)`. -/
def Json.isObj : Json → Bool
  | .obj _ => true
  | _ => false

/-- The entries of a dict value (unused default `[]` on non-dicts). -/
def Json.getObj : Json → List (String × Json)
  | .obj kvs => kvs
  | _ => []

/-- Python truthiness of a JSON-deserialized value (`if ret:`). -/
def Json.truthy : Json → Bool
  | .null => false
  | .bool b => b
  | .num n => n != 0
  | .str s => s != ""
  | .arr xs => !xs.isEmpty
  | .obj kvs => !kvs.isEmpty

/-- `d[k]` / `d.get(k)` on a dict: the value at the first matching key. -/
def lookupKV {α : Type} : List (String × α) → String → Option α
  | [], _ => none
  | (k, v) :: rest, key => if k = key then some v else lookupKV rest key

/-- `k in d` on a dict. -/
def hasKey {α : Type} (kvs : List (String × α)) (key : String) : Bool :=
  (lookupKV kvs key).isSome

/-- Python dict assignment `d[key] = v`: replaces the entry in place when the
key is present (keeping its position), appends a new entry otherwise. -/
def setKV {α : Type} : List (String × α) → String → α → List (String × α)
  | [], key, v => [(key, v)]
  | (k, w) :: rest, key, v =>
    if k = key then (key, v) :: rest else (k, w) :: setKV rest key v

/-- Key-uniqueness of a dict, an invariant of every real Python dict. -/
def keysNodup {α : Type} : List (String × α) → Bool
  | [] => true
  | p :: rest => !(rest.any (fun q => q.1 == p.1)) && keysNodup rest

mutual

/-- Structural size of a JSON value, the termination measure for the
nested-table recursion. -/
def jsize : Json → Nat
  | .arr xs => 1 + jsizeArr xs
  | .obj kvs => 1 + jsizeObj kvs
  | _ => 1

def jsizeArr : List Json → Nat
  | [] => 0
  | x :: xs => jsize x + jsizeArr xs

def jsizeObj : List (String × Json) → Nat
  | [] => 0
  | (_, v) :: kvs => 1 + jsize v + jsizeObj kvs

end

/-- The record `{"name": key, **deepcopy(dict_of_dict[key])}` built for one
entry: a fresh dict with `"name"` inserted first, then each field of the
entry's value assigned in order (`deepcopy` is the identity on values). -/
def mkNamedRecord (key : String) (vkvs : List (String × Json)) :
    List (String × Json) :=
  vkvs.foldl (fun acc p => setKV acc p.1 p.2) [("name", Json.str key)]

/-- `isinstance(key, dict)` for a key of a JSON-deserialized dict: keys are
strings, never dicts, so this is constantly false. -/
def keyIsDict (_ : String) : Bool := false

/-- `dict_to_named_list` from `DocStringLoader._transform_doc_strings`:
returns `[{"name": key, **deepcopy(dict_of_dict[key])} for key in dict_of_dict]`.
Spreading a non-dict value with `**` raises `TypeError`, caught by the
`except TypeError` branch, which logs a warning and retries keeping only the
keys satisfying `isinstance(key, dict)`. -/
def dict_to_named_list (dict_of_dict : List (String × Json)) : List Json :=
  if dict_of_dict.all (fun p => p.2.isObj) then
    dict_of_dict.map (fun p => Json.obj (mkNamedRecord p.1 p.2.getObj))
  else
    (dict_of_dict.filter (fun p => keyIsDict p.1)).map
      (fun p => Json.obj (mkNamedRecord p.1 p.2.getObj))

theorem jsize_pos (j : Json) : 1 ≤ jsize j := by
  cases j <;> simp only [jsize] <;> omega

theorem lookupKV_mem {α : Type} {kvs : List (String × α)} {key : String}
    {v : α} (h : lookupKV kvs key = some v) : (key, v) ∈ kvs := by
  induction kvs with
  | nil => simp [lookupKV] at h
  | cons p rest ih =>
    obtain ⟨k, w⟩ := p
    by_cases hk : k = key
    · subst hk
      simp [lookupKV] at h
      subst h
      exact List.mem_cons_self _ _
    · simp [lookupKV, hk] at h
      exact List.mem_cons_of_mem _ (ih h)

theorem jsizeObj_mem {kvs : List (String × Json)} {key : String} {v : Json}
    (h : (key, v) ∈ kvs) : 1 + jsize v ≤ jsizeObj kvs := by
  induction kvs with
  | nil => simp at h
  | cons p rest ih =>
    obtain ⟨k, w⟩ := p
    rcases List.mem_cons.mp h with h1 | h2
    · obtain ⟨rfl, rfl⟩ := Prod.mk.injEq .. ▸ h1
      simp only [jsizeObj]
      omega
    · have := ih h2
      simp only [jsizeObj]
      omega

theorem jsizeObj_setKV (acc : List (String × Json)) (k : String) (v : Json) :
    jsizeObj (setKV acc k v) ≤ jsizeObj acc + 1 + jsize v := by
  induction acc with
  | nil => simp only [setKV, jsizeObj]; omega
  | cons p rest ih =>
    obtain ⟨k0, w⟩ := p
    by_cases hk : k0 = k
    · simp only [setKV, if_pos hk, jsizeObj]
      have := jsize_pos w
      omega
    · simp only [setKV, if_neg hk, jsizeObj]
      omega

theorem jsizeObj_foldl_setKV (l : List (String × Json)) :
    ∀ init : List (String × Json),
      jsizeObj (l.foldl (fun acc p => setKV acc p.1 p.2) init) ≤
        jsizeObj init + jsizeObj l := by
  induction l with
  | nil => intro init; simp [jsizeObj]
  | cons p rest ih =>
    intro init
    have h1 := ih (setKV init p.1 p.2)
    have h2 := jsizeObj_setKV init p.1 p.2
    obtain ⟨k, v⟩ := p
    simp only [List.foldl_cons] at *
    simp [jsizeObj]
    omega

theorem jsizeObj_mkNamedRecord (key : String) (vkvs : List (String × Json)) :
    jsizeObj (mkNamedRecord key vkvs) ≤ 2 + jsizeObj vkvs := by
  have := jsizeObj_foldl_setKV vkvs [("name", Json.str key)]
  simp [mkNamedRecord, jsizeObj, jsize] at *
  omega

theorem jsize_mem_dict_to_named_list {m : List (String × Json)} {r : Json}
    (h : r ∈ dict_to_named_list m) : jsize r ≤ 1 + jsizeObj m := by
  unfold dict_to_named_list at h
  split at h
  case isTrue hall =>
    rcases List.mem_map.mp h with ⟨p, hp, rfl⟩
    obtain ⟨k, v⟩ := p
    have hobj : v.isObj = true := by
      have := List.all_eq_true.mp hall _ hp
      simpa using this
    cases v with
    | obj vkvs =>
      have h1 : jsize (Json.obj (mkNamedRecord k vkvs)) ≤
          1 + (2 + jsizeObj vkvs) := by
        have := jsizeObj_mkNamedRecord k vkvs
        simp [jsize, Json.getObj]
        omega
      have h2 := jsizeObj_mem hp
      simp [jsize] at h2
      simp [Json.getObj] at h1 ⊢
      simp [jsize] at h1 ⊢
      omega
    | null => simp [Json.isObj] at hobj
    | bool b => simp [Json.isObj] at hobj
    | num n => simp [Json.isObj] at hobj
    | str s => simp [Json.isObj] at hobj
    | arr xs => simp [Json.isObj] at hobj
  case isFalse =>
    simp [keyIsDict] at h

/-- `handle_nested_tables` from `DocStringLoader._transform_doc_strings`:
if `table_key in obj and isinstance(obj[table_key], dict)`, replace
`obj[table_key]` with `dict_to_named_list(obj[table_key])` and recurse into
every row of the new list with the same table key; otherwise do nothing.
(The Python function mutates `obj` in place; here the updated object is
returned.  It is only ever called on dicts — the rows produced by
`dict_to_named_list` — so non-dict values are returned unchanged.) -/
def handle_nested_tables (table_key : String) : Json → Json
  | Json.obj kvs =>
    match h : lookupKV kvs table_key with
    | some (Json.obj sub) =>
      Json.obj (setKV kvs table_key
        (Json.arr ((dict_to_named_list sub).attach.map
          (fun r => handle_nested_tables table_key r.1))))
    | _ => Json.obj kvs
  | j => j
termination_by j => jsize j
decreasing_by
  have h1 := jsize_mem_dict_to_named_list r.2
  have h2 := jsizeObj_mem (lookupKV_mem h)
  simp [jsize] at h2 ⊢
  omega

theorem handle_nested_tables_attach (table_key : String)
    (sub : List (String × Json)) :
    (dict_to_named_list sub).attach.map
        (fun r => handle_nested_tables table_key r.1) =
      (dict_to_named_list sub).map (handle_nested_tables table_key) := by
  rw [List.map_attach, List.pmap_eq_map]

/-- Unfolding `handle_nested_tables` when the table key holds a dict:
the conversion fires. -/
theorem handle_nested_tables_conv {table_key : String}
    {kvs sub : List (String × Json)}
    (h : lookupKV kvs table_key = some (Json.obj sub)) :
    handle_nested_tables table_key (Json.obj kvs) =
      Json.obj (setKV kvs table_key
        (Json.arr ((dict_to_named_list sub).map
          (handle_nested_tables table_key)))) := by
  rw [handle_nested_tables.eq_def]
  split
  next kvs2 heq =>
    injection heq with heq
    subst heq
    split
    next sub3 heq3 =>
      rw [h] at heq3
      injection heq3 with heq3
      injection heq3 with heq3
      subst heq3
      rw [handle_nested_tables_attach]
    next x hno =>
      exact absurd h (hno sub)
  next hno =>
    exact absurd rfl (hno kvs)

/-- Unfolding `handle_nested_tables` when the table key is absent or does not
hold a dict: nothing happens. -/
theorem handle_nested_tables_skip {table_key : String}
    {kvs : List (String × Json)}
    (h : ∀ sub, lookupKV kvs table_key ≠ some (Json.obj sub)) :
    handle_nested_tables table_key (Json.obj kvs) = Json.obj kvs := by
  rw [handle_nested_tables.eq_def]
  split
  next kvs2 heq =>
    injection heq with heq
    subst heq
    split
    next sub3 heq3 => exact absurd heq3 (h sub3)
    next x hno => rfl
  next hno =>
    exact absurd rfl (hno kvs)

/-- One table conversion site: `obj[key] = dict_to_named_list(obj[key])`
followed by `for row in obj[key]: handle_nested_tables(row, key)` —
convert the dict of dicts and recurse into every produced row. -/
def convertTable (table_key : String) (m : List (String × Json)) : Json :=
  Json.arr ((dict_to_named_list m).map (handle_nested_tables table_key))

/-- The `doc`/`options` block of `_transform_doc_strings`:
`doc["options"] = dict_to_named_list(doc["options"])` when
`isinstance(doc.get("options"), dict)`, with `suboptions` recursion.
`doc` aliases `data["doc"]`, so the mutation is visible in `data` exactly
when `"doc"` is a key of `data` (when `"doc"` is absent, `doc` is the fresh
default `{}` and nothing can be mutated). -/
def applyOptions (dkvs dockvs : List (String × Json)) :
    List (String × Json) :=
  match lookupKV dockvs "options" with
  | some (Json.obj opts) =>
    if hasKey dkvs "doc" then
      setKV dkvs "doc"
        (Json.obj (setKV dockvs "options" (convertTable "suboptions" opts)))
    else dkvs
  | _ => dkvs

/-- The `return` block of `_transform_doc_strings`:
`ret = data.get("return", None); if ret and isinstance(ret, dict):
data["return"] = dict_to_named_list(ret)` with `contains` recursion. -/
def applyReturn (dkvs : List (String × Json)) : List (String × Json) :=
  match lookupKV dkvs "return" with
  | some (Json.obj rkvs) =>
    if (Json.obj rkvs).truthy then
      setKV dkvs "return" (convertTable "contains" rkvs)
    else dkvs
  | _ => dkvs

/-- `DocStringLoader._transform_doc_strings(data)`.  Python exceptions are
modelled as `Except.error`: `data.get` on a non-dict payload and
`doc.get("options")` on a non-dict `doc` both raise `AttributeError`. -/
def transform_doc_strings (data : Json) : Except String Json :=
  match data with
  | Json.obj dkvs =>
    match (lookupKV dkvs "doc").getD (Json.obj []) with
    | Json.obj dockvs =>
      Except.ok (Json.obj (applyReturn (applyOptions dkvs dockvs)))
    | _ => Except.error "AttributeError: doc has no attribute get"
  | _ => Except.error "AttributeError: data has no attribute get"

/-- `DocStringLoader._process_doc_strings`: transform every payload of the
plugin-key → payload dict, keyed as before. -/
def process_doc_strings (doc_strings : List (String × Json)) :
    Except String (List (String × Json)) :=
  doc_strings.foldlM (fun acc p => do
    let v ← transform_doc_strings p.2
    pure (setKV acc p.1 v)) []

/-- Code-point order on characters, the order Python compares strings by. -/
def charCodeLt (a b : Char) : Bool := a.val < b.val

/-- Lexicographic order on the characters of two strings. -/
def strDataLt : List Char → List Char → Bool
  | [], [] => false
  | [], _ :: _ => true
  | _ :: _, [] => false
  | a :: as, b :: bs =>
    if charCodeLt a b then true
    else if charCodeLt b a then false
    else strDataLt as bs

/-- Python string `<=`: lexicographic by code points. -/
def strLe (a b : String) : Bool := !(strDataLt b.data a.data)

def insertSorted (x : String) : List String → List String
  | [] => [x]
  | y :: ys => if strLe x y then x :: y :: ys else y :: insertSorted x ys

/-- A stable ascending sort, the behavior of Python's `sorted`. -/
def sortStrings : List String → List String
  | [] => []
  | x :: xs => insertSorted x (sortStrings xs)

/-- `sorted(found_plugins.keys())`. -/
def sortedKeys (m : List (String × Json)) : List String :=
  sortStrings (m.map Prod.fst)

/-- The `for plugin_type in plugin_types` loop of `DocStringLoader.load`:
list the plugins of the type, skip the type when none are found, otherwise
fetch docs for the sorted plugin names, process them, and store the result
under the plugin type (a raised exception propagates out of the loop).
`list_plugins` abstracts `_run_ansible_doc_list` and `fetch_docs` abstracts
`_run_ansible_doc`, the two external-tool invocations. -/
def loadLoop (list_plugins : String → List (String × Json))
    (fetch_docs : String → List String → List (String × Json)) :
    List String → List (String × List (String × Json)) →
      Except String (List (String × List (String × Json)))
  | [], docs => Except.ok docs
  | plugin_type :: rest, docs =>
    let plugins := sortedKeys (list_plugins plugin_type)
    if plugins.isEmpty then
      loadLoop list_plugins fetch_docs rest docs
    else
      match process_doc_strings (fetch_docs plugin_type plugins) with
      | Except.ok data =>
        loadLoop list_plugins fetch_docs rest (setKV docs plugin_type data)
      | Except.error e => Except.error e

/-- `DocStringLoader.load`: `docs = {}`; if `ansible-doc` is not on the path
return the empty dict, otherwise run the plugin-type loop. -/
def load (ansible_doc_found : Bool) (plugin_types : List String)
    (list_plugins : String → List (String × Json))
    (fetch_docs : String → List String → List (String × Json)) :
    Except String (List (String × List (String × Json))) :=
  if ansible_doc_found then loadLoop list_plugins fetch_docs plugin_types []
  else Except.ok []

theorem lookupKV_setKV_self {α : Type} (l : List (String × α)) (k : String)
    (v : α) : lookupKV (setKV l k v) k = some v := by
  induction l with
  | nil => simp [setKV, lookupKV]
  | cons p rest ih =>
    obtain ⟨k0, w⟩ := p
    by_cases hk : k0 = k
    · simp [setKV, hk, lookupKV]
    · simp [setKV, hk, lookupKV, ih]

theorem lookupKV_setKV_ne {α : Type} (l : List (String × α)) {k k2 : String}
    (v : α) (h : k2 ≠ k) : lookupKV (setKV l k v) k2 = lookupKV l k2 := by
  induction l with
  | nil => simp [setKV, lookupKV, Ne.symm h]
  | cons p rest ih =>
    obtain ⟨k0, w⟩ := p
    by_cases hk : k0 = k
    · subst hk
      simp only [setKV, if_pos rfl, lookupKV]
      by_cases hk2 : k0 = k2
      · exact absurd hk2.symm h
      · simp [hk2]
    · simp only [setKV, if_neg hk, lookupKV]
      by_cases hk2 : k0 = k2
      · simp [hk2]
      · simp [hk2, ih]

theorem lookupKV_eq_none {α : Type} {l : List (String × α)} {k : String} :
    lookupKV l k = none ↔ ∀ p ∈ l, p.1 ≠ k := by
  induction l with
  | nil => simp [lookupKV]
  | cons p rest ih =>
    obtain ⟨k0, w⟩ := p
    by_cases hk : k0 = k
    · simp [lookupKV, hk]
    · simp [lookupKV, hk, ih]

theorem setKV_of_absent {α : Type} {l : List (String × α)} {k : String}
    (v : α) (h : lookupKV l k = none) : setKV l k v = l ++ [(k, v)] := by
  induction l with
  | nil => simp [setKV]
  | cons p rest ih =>
    obtain ⟨k0, w⟩ := p
    have h0 : k0 ≠ k := (lookupKV_eq_none.mp h) (k0, w) (List.mem_cons_self _ _)
    have hrest : lookupKV rest k = none := by
      rw [lookupKV_eq_none]
      intro q hq
      exact (lookupKV_eq_none.mp h) q (List.mem_cons_of_mem _ hq)
    simp [setKV, h0, ih hrest]

/-- `mkNamedRecord` always writes `"name"` first: the record starts with the
`"name"` entry no matter what the value's own fields are. -/
theorem mkNamedRecord_head (key : String) (vkvs : List (String × Json)) :
    ∃ v rest, mkNamedRecord key vkvs = ("name", v) :: rest := by
  suffices h : ∀ (l : List (String × Json)) (v0 : Json)
      (rest0 : List (String × Json)),
      ∃ v rest, l.foldl (fun acc p => setKV acc p.1 p.2)
        (("name", v0) :: rest0) = ("name", v) :: rest by
    exact h vkvs (Json.str key) []
  intro l
  induction l with
  | nil => exact fun v0 rest0 => ⟨v0, rest0, rfl⟩
  | cons p rest ih =>
    intro v0 rest0
    obtain ⟨k, w⟩ := p
    by_cases hk : "name" = k
    · simpa [setKV, hk] using ih w rest0
    · simpa [setKV, hk] using ih v0 (setKV rest0 k w)

theorem keysNodup_cons {α : Type} {p : String × α} {rest : List (String × α)}
    (h : keysNodup (p :: rest) = true) :
    (∀ q ∈ rest, q.1 ≠ p.1) ∧ keysNodup rest = true := by
  have h1 : (rest.any (fun q => q.1 == p.1)) = false ∧ keysNodup rest = true := by
    simpa [keysNodup] using h
  refine ⟨?_, h1.2⟩
  intro q hq he
  have h2 := List.any_eq_false.mp h1.1 q hq
  exact h2 (by simp [he])

/-- Looking a key up in the record `{"name": key, **value}`: any key other
than `"name"` finds the value's own field; `"name"` finds the value's own
`"name"` when the value has one (the later write wins), the promoted key
otherwise.  Requires key-uniqueness of the value, which every Python dict
has. -/
theorem mkNamedRecord_lookup (key : String) {vkvs : List (String × Json)}
    (hnd : keysNodup vkvs = true) (k : String) :
    lookupKV (mkNamedRecord key vkvs) k =
      if k = "name" then
        some ((lookupKV vkvs "name").getD (Json.str key))
      else lookupKV vkvs k := by
  suffices h : ∀ (l : List (String × Json)), keysNodup l = true →
      ∀ (init : List (String × Json)) (k : String),
        lookupKV (l.foldl (fun acc p => setKV acc p.1 p.2) init) k =
          match lookupKV l k with
          | some v => some v
          | none => lookupKV init k by
    have h2 := h vkvs hnd [("name", Json.str key)] k
    rw [mkNamedRecord, h2]
    by_cases hk : k = "name"
    · subst hk
      cases hl : lookupKV vkvs "name" <;> simp [hl, lookupKV, Option.getD]
    · cases hl : lookupKV vkvs k <;> simp [hl, lookupKV, hk, Ne.symm hk]
  intro l
  induction l with
  | nil => intro _ init k; simp [lookupKV]
  | cons p rest ih =>
    intro hnd2 init k
    obtain ⟨hne, hndrest⟩ := keysNodup_cons hnd2
    obtain ⟨k0, w⟩ := p
    simp only [List.foldl_cons]
    rw [ih hndrest]
    by_cases hk : k0 = k
    · subst hk
      have hrest : lookupKV rest k0 = none := by
        rw [lookupKV_eq_none]
        exact fun q hq => hne q hq
      simp [hrest, lookupKV, lookupKV_setKV_self]
    · simp only [lookupKV, if_neg hk]
      cases hl : lookupKV rest k with
      | some v => simp
      | none => simp [lookupKV_setKV_ne _ _ (fun he => hk he.symm)]

/-- When the value has unique keys and no `"name"` field of its own,
`{"name": key, **value}` is literally the `"name"` entry followed by the
value's entries in order. -/
theorem mkNamedRecord_eq_cons (key : String) {vkvs : List (String × Json)}
    (hnd : keysNodup vkvs = true) (hname : lookupKV vkvs "name" = none) :
    mkNamedRecord key vkvs = ("name", Json.str key) :: vkvs := by
  suffices h : ∀ (l init : List (String × Json)), keysNodup l = true →
      (∀ p ∈ l, lookupKV init p.1 = none) →
      l.foldl (fun acc p => setKV acc p.1 p.2) init = init ++ l by
    apply h vkvs [("name", Json.str key)] hnd
    intro p hp
    have hp1 : p.1 ≠ "name" := by
      intro he
      rw [lookupKV_eq_none] at hname
      exact hname p hp he
    simp [lookupKV, Ne.symm hp1]
  intro l
  induction l with
  | nil => intro init _ _; simp
  | cons p rest ih =>
    intro init hnd2 habs
    obtain ⟨hne, hndrest⟩ := keysNodup_cons hnd2
    obtain ⟨k, w⟩ := p
    simp only [List.foldl_cons]
    rw [setKV_of_absent w (habs (k, w) (List.mem_cons_self _ _))]
    rw [ih (init ++ [(k, w)]) hndrest]
    · simp
    · intro q hq
      rw [lookupKV_eq_none]
      intro r hr
      rcases List.mem_append.mp hr with h1 | h2
      · have := (lookupKV_eq_none.mp (habs q (List.mem_cons_of_mem _ hq))) r h1
        exact this
      · simp at h2
        subst h2
        exact fun he => (hne q hq) he.symm

theorem hasKey_eq_false {α : Type} {kvs : List (String × α)} {k : String} :
    hasKey kvs k = false ↔ lookupKV kvs k = none := by
  rw [hasKey, ← Option.not_isSome_iff_eq_none]
  cases lookupKV kvs k <;> simp

theorem lookupKV_of_mem_nodup {α : Type} {kvs : List (String × α)}
    {k : String} {v : α} (hnd : keysNodup kvs = true) (h : (k, v) ∈ kvs) :
    lookupKV kvs k = some v := by
  induction kvs with
  | nil => simp at h
  | cons p rest ih =>
    obtain ⟨hne, hndrest⟩ := keysNodup_cons hnd
    obtain ⟨k0, w⟩ := p
    rcases List.mem_cons.mp h with h1 | h2
    · obtain ⟨rfl, rfl⟩ := Prod.mk.injEq .. ▸ h1
      simp [lookupKV]
    · have hk : k0 ≠ k := fun he => (hne (k, v) h2) (he ▸ rfl)
      simp [lookupKV, hk, ih hndrest h2]

theorem lookupKV_cons_ne {α : Type} {k0 k : String} {w : α}
    {rest : List (String × α)} (h : k0 ≠ k) :
    lookupKV ((k0, w) :: rest) k = lookupKV rest k := by
  simp [lookupKV, h]

theorem setKV_cons_ne {α : Type} {k0 k : String} {w : α}
    {rest : List (String × α)} (v : α) (h : k0 ≠ k) :
    setKV ((k0, w) :: rest) k v = (k0, w) :: setKV rest k v := by
  simp [setKV, h]

/-- Under key-uniqueness, replacing the value at a present dict-valued key by
`setKV` equals mapping the replacement over the entries. -/
theorem setKV_conv_map (f : List (String × Json) → Json)
    {vkvs sub : List (String × Json)} {table_key : String}
    (hnd : keysNodup vkvs = true)
    (hl : lookupKV vkvs table_key = some (Json.obj sub)) :
    setKV vkvs table_key (f sub) =
      vkvs.map (fun q =>
        if q.1 == table_key && q.2.isObj then (q.1, f q.2.getObj) else q) := by
  induction vkvs with
  | nil => simp [lookupKV] at hl
  | cons p rest ih =>
    obtain ⟨hne, hndrest⟩ := keysNodup_cons hnd
    obtain ⟨k, v⟩ := p
    by_cases hk : k = table_key
    · subst hk
      simp only [lookupKV, if_pos rfl] at hl
      injection hl with hl
      subst hl
      have hrest : rest.map (fun q =>
          if q.1 == k && q.2.isObj then (q.1, f q.2.getObj) else q) = rest := by
        have h2 := List.map_congr_left (l := rest)
          (f := fun q => if q.1 == k && q.2.isObj then (q.1, f q.2.getObj) else q)
          (g := id) ?_
        · simpa using h2
        · intro q hq
          have hqk : q.1 ≠ k := hne q hq
          simp [hqk]
      have hstep : setKV ((k, Json.obj sub) :: rest) k (f sub) =
          (k, f sub) :: rest := by simp [setKV]
      rw [hstep, List.map_cons, hrest]
      congr 1
      simp [Json.isObj, Json.getObj]
    · rw [lookupKV_cons_ne hk] at hl
      rw [setKV_cons_ne _ hk, ih hndrest hl, List.map_cons]
      congr 1
      simp [hk]

/-- Under key-uniqueness, when the table key does not hold a dict the
per-entry replacement map is the identity. -/
theorem conv_map_id {vkvs : List (String × Json)} {table_key : String}
    (f : List (String × Json) → Json)
    (hnd : keysNodup vkvs = true)
    (hskip : ∀ sub, lookupKV vkvs table_key ≠ some (Json.obj sub)) :
    vkvs.map (fun q =>
        if q.1 == table_key && q.2.isObj then (q.1, f q.2.getObj) else q) =
      vkvs := by
  have h := List.map_congr_left (l := vkvs)
    (f := fun q => if q.1 == table_key && q.2.isObj then (q.1, f q.2.getObj) else q)
    (g := id) ?_
  · simpa using h
  · intro q hq
    by_cases hk : q.1 = table_key
    · obtain ⟨k, v⟩ := q
      simp only at hk
      subst hk
      have hlq := lookupKV_of_mem_nodup hnd hq
      cases v with
      | obj vv => exact absurd hlq (hskip vv)
      | null => simp [Json.isObj]
      | bool b => simp [Json.isObj]
      | num n => simp [Json.isObj]
      | str s => simp [Json.isObj]
      | arr xs => simp [Json.isObj]
    · simp [hk]

/-- Modelled from the spec: a `table_key` tree of bounded depth.  Every value
of the mapping is itself a mapping (a Table row) with unique keys and no
`"name"` field of its own, and its `table_key` field, when it holds a
mapping, is again such a tree of smaller depth; at depth 0 the `table_key`
field may not hold a mapping at all. -/
def isTree (table_key : String) : Nat → List (String × Json) → Bool
  | 0, m => m.all (fun p => p.2.isObj && keysNodup p.2.getObj &&
      !(hasKey p.2.getObj "name") &&
      (match lookupKV p.2.getObj table_key with
       | some (Json.obj _) => false
       | _ => true))
  | n + 1, m => m.all (fun p => p.2.isObj && keysNodup p.2.getObj &&
      !(hasKey p.2.getObj "name") &&
      (match lookupKV p.2.getObj table_key with
       | some (Json.obj sub) => isTree table_key n sub
       | _ => true))

/-- Modelled from the spec: the expected normalized form of a bounded-depth
table.  Each key becomes a record with `"name"` first followed by the
value's fields, and the `table_key` field, when it holds a mapping, is
replaced in place by the recursively normalized list. -/
def specNamedList (table_key : String) : Nat → List (String × Json) → List Json
  | 0, m => m.map (fun p => Json.obj (("name", Json.str p.1) :: p.2.getObj))
  | n + 1, m =>
    m.map (fun p => Json.obj (("name", Json.str p.1) ::
      p.2.getObj.map (fun q =>
        if q.1 == table_key && q.2.isObj then
          (q.1, Json.arr (specNamedList table_key n q.2.getObj))
        else q)))

theorem dict_to_named_list_allObj {m : List (String × Json)}
    (h : m.all (fun p => p.2.isObj) = true) :
    dict_to_named_list m =
      m.map (fun p => Json.obj (mkNamedRecord p.1 p.2.getObj)) := by
  simp [dict_to_named_list, h]


theorem setKV_conv_map_spec (table_key : String) (n : Nat)
    {vkvs sub : List (String × Json)} (hnd : keysNodup vkvs = true)
    (hl : lookupKV vkvs table_key = some (Json.obj sub)) :
    setKV vkvs table_key (Json.arr (specNamedList table_key n sub)) =
      vkvs.map (fun q =>
        if q.1 == table_key && q.2.isObj then
          (q.1, Json.arr (specNamedList table_key n q.2.getObj))
        else q) :=
  setKV_conv_map (fun s => Json.arr (specNamedList table_key n s)) hnd hl

theorem conv_map_id_spec (table_key : String) (n : Nat)
    {vkvs : List (String × Json)} (hnd : keysNodup vkvs = true)
    (hskip : ∀ sub, lookupKV vkvs table_key ≠ some (Json.obj sub)) :
    vkvs.map (fun q =>
        if q.1 == table_key && q.2.isObj then
          (q.1, Json.arr (specNamedList table_key n q.2.getObj))
        else q) = vkvs :=
  conv_map_id (fun s => Json.arr (specNamedList table_key n s)) hnd hskip


/-- The implementation meets the spec's description of normalization on
bounded-depth trees: converting a tree table and recursing into each row
equals the expected nested list-of-records form, at every level. -/
theorem dtnl_handle_spec (table_key : String) (hname : table_key ≠ "name") :
    ∀ (n : Nat) (m : List (String × Json)), isTree table_key n m = true →
      (dict_to_named_list m).map (handle_nested_tables table_key) =
        specNamedList table_key n m := by
  intro n
  induction n with
  | zero =>
    intro m htree
    simp only [isTree] at htree
    have hall : m.all (fun p => p.2.isObj) = true := by
      rw [List.all_eq_true] at htree ⊢
      intro p hp
      have h1 := htree p hp
      simp only [Bool.and_eq_true] at h1
      exact h1.1.1.1
    rw [dict_to_named_list_allObj hall, List.map_map, specNamedList]
    apply List.map_congr_left
    intro p hp
    have hcond := List.all_eq_true.mp htree p hp
    simp only [Bool.and_eq_true, Bool.not_eq_true'] at hcond
    obtain ⟨⟨⟨hobj, hnd⟩, hnoname⟩, hmatch⟩ := hcond
    obtain ⟨k, v⟩ := p
    cases v with
    | obj vkvs =>
      replace hnd : keysNodup vkvs = true := hnd
      replace hnoname : hasKey vkvs "name" = false := hnoname
      replace hmatch : (match lookupKV vkvs table_key with
        | some (Json.obj _) => false
        | _ => true) = true := hmatch
      show handle_nested_tables table_key (Json.obj (mkNamedRecord k vkvs)) =
        Json.obj (("name", Json.str k) :: vkvs)
      rw [mkNamedRecord_eq_cons k hnd (hasKey_eq_false.mp hnoname)]
      apply handle_nested_tables_skip
      intro sub hlk
      rw [lookupKV_cons_ne (Ne.symm hname)] at hlk
      rw [hlk] at hmatch
      simp at hmatch
    | null => simp [Json.isObj] at hobj
    | bool b => simp [Json.isObj] at hobj
    | num n2 => simp [Json.isObj] at hobj
    | str s => simp [Json.isObj] at hobj
    | arr xs => simp [Json.isObj] at hobj
  | succ n ih =>
    intro m htree
    simp only [isTree] at htree
    have hall : m.all (fun p => p.2.isObj) = true := by
      rw [List.all_eq_true] at htree ⊢
      intro p hp
      have h1 := htree p hp
      simp only [Bool.and_eq_true] at h1
      exact h1.1.1.1
    rw [dict_to_named_list_allObj hall, List.map_map, specNamedList]
    apply List.map_congr_left
    intro p hp
    have hcond := List.all_eq_true.mp htree p hp
    simp only [Bool.and_eq_true, Bool.not_eq_true'] at hcond
    obtain ⟨⟨⟨hobj, hnd⟩, hnoname⟩, hmatch⟩ := hcond
    obtain ⟨k, v⟩ := p
    cases v with
    | obj vkvs =>
      replace hnd : keysNodup vkvs = true := hnd
      replace hnoname : hasKey vkvs "name" = false := hnoname
      replace hmatch : (match lookupKV vkvs table_key with
        | some (Json.obj sub) => isTree table_key n sub
        | _ => true) = true := hmatch
      show handle_nested_tables table_key (Json.obj (mkNamedRecord k vkvs)) =
        Json.obj (("name", Json.str k) :: vkvs.map (fun q =>
          if q.1 == table_key && q.2.isObj then
            (q.1, Json.arr (specNamedList table_key n q.2.getObj))
          else q))
      rw [mkNamedRecord_eq_cons k hnd (hasKey_eq_false.mp hnoname)]
      cases hl : lookupKV vkvs table_key with
      | some v2 =>
        cases v2 with
        | obj sub =>
          rw [hl] at hmatch
          replace hmatch : isTree table_key n sub = true := hmatch
          have hcons : lookupKV (("name", Json.str k) :: vkvs) table_key =
              some (Json.obj sub) := by
            rw [lookupKV_cons_ne (Ne.symm hname)]
            exact hl
          have hconv := handle_nested_tables_conv hcons
          rw [hconv, ih sub hmatch,
            setKV_cons_ne _ (Ne.symm hname),
            setKV_conv_map_spec table_key n hnd hl]
        | null =>
          rw [handle_nested_tables_skip (fun sub hlk => by
              rw [lookupKV_cons_ne (Ne.symm hname), hl] at hlk
              cases hlk),
            conv_map_id_spec table_key n hnd (fun sub hlk => by
              rw [hl] at hlk
              cases hlk)]
        | bool b =>
          rw [handle_nested_tables_skip (fun sub hlk => by
              rw [lookupKV_cons_ne (Ne.symm hname), hl] at hlk
              cases hlk),
            conv_map_id_spec table_key n hnd (fun sub hlk => by
              rw [hl] at hlk
              cases hlk)]
        | num n2 =>
          rw [handle_nested_tables_skip (fun sub hlk => by
              rw [lookupKV_cons_ne (Ne.symm hname), hl] at hlk
              cases hlk),
            conv_map_id_spec table_key n hnd (fun sub hlk => by
              rw [hl] at hlk
              cases hlk)]
        | str s =>
          rw [handle_nested_tables_skip (fun sub hlk => by
              rw [lookupKV_cons_ne (Ne.symm hname), hl] at hlk
              cases hlk),
            conv_map_id_spec table_key n hnd (fun sub hlk => by
              rw [hl] at hlk
              cases hlk)]
        | arr xs =>
          rw [handle_nested_tables_skip (fun sub hlk => by
              rw [lookupKV_cons_ne (Ne.symm hname), hl] at hlk
              cases hlk),
            conv_map_id_spec table_key n hnd (fun sub hlk => by
              rw [hl] at hlk
              cases hlk)]
      | none =>
        rw [handle_nested_tables_skip (fun sub hlk => by
            rw [lookupKV_cons_ne (Ne.symm hname), hl] at hlk
            cases hlk),
          conv_map_id_spec table_key n hnd (fun sub hlk => by
            rw [hl] at hlk
            cases hlk)]
    | null => simp [Json.isObj] at hobj
    | bool b => simp [Json.isObj] at hobj
    | num n2 => simp [Json.isObj] at hobj
    | str s => simp [Json.isObj] at hobj
    | arr xs => simp [Json.isObj] at hobj

theorem convertTable_spec (table_key : String) (hname : table_key ≠ "name")
    (n : Nat) (m : List (String × Json)) (htree : isTree table_key n m = true) :
    convertTable table_key m = Json.arr (specNamedList table_key n m) := by
  rw [convertTable, dtnl_handle_spec table_key hname n m htree]

theorem applyOptions_frame (dkvs dockvs : List (String × Json)) {k : String}
    (hk : k ≠ "doc") :
    lookupKV (applyOptions dkvs dockvs) k = lookupKV dkvs k := by
  rw [applyOptions]
  split
  · split
    · rw [lookupKV_setKV_ne _ _ hk]
    · rfl
  · rfl

theorem applyReturn_frame (dkvs : List (String × Json)) {k : String}
    (hk : k ≠ "return") :
    lookupKV (applyReturn dkvs) k = lookupKV dkvs k := by
  rw [applyReturn]
  split
  · split
    · rw [lookupKV_setKV_ne _ _ hk]
    · rfl
  · rfl

/-- When `return` is absent, or holds anything but a non-empty dict, the
`return` block does nothing. -/
theorem applyReturn_skip {dkvs : List (String × Json)}
    (hcond : ∀ rkvs, lookupKV dkvs "return" = some (Json.obj rkvs) →
      rkvs = []) :
    applyReturn dkvs = dkvs := by
  rw [applyReturn]
  split
  next rkvs heq =>
    have h0 := hcond rkvs heq
    subst h0
    simp [Json.truthy]
  next => rfl

/-- The successful run of the transform: when the `doc` field is absent or a
dict, no exception is raised and the result is the two blocks in order. -/
theorem transform_eq {dkvs dockvs : List (String × Json)}
    (hdoc : (lookupKV dkvs "doc").getD (Json.obj []) = Json.obj dockvs) :
    transform_doc_strings (Json.obj dkvs) =
      Except.ok (Json.obj (applyReturn (applyOptions dkvs dockvs))) := by
  rw [transform_doc_strings, hdoc]

/-- C1 counterexample: a payload whose `doc` field is present but not a
mapping makes the normalizer raise `AttributeError` (`doc.get("options")` on
a string), contradicting the claim that it never raises in that case. -/
theorem C1_doc_nonmapping_raises :
    transform_doc_strings (Json.obj [("doc", Json.str "hello")]) =
      Except.error "AttributeError: doc has no attribute get" := rfl

/-- C1 (amended): the normalizer does not raise on any dict payload whose
`doc` field, when present, is a mapping — in particular when `doc.options`
is present but not a mapping, when `return` is present but not a mapping,
or when a value inside those mappings is not itself a mapping.  (When `doc`
is present and not a mapping it raises, see the counterexample.) -/
theorem C1_transform_no_raise (dkvs : List (String × Json))
    (hdoc : lookupKV dkvs "doc" = none ∨
      ∃ dockvs, lookupKV dkvs "doc" = some (Json.obj dockvs)) :
    ∃ out, transform_doc_strings (Json.obj dkvs) = Except.ok out := by
  rcases hdoc with h | ⟨dockvs, h⟩
  · have h0 : (lookupKV dkvs "doc").getD (Json.obj []) = Json.obj [] := by
      rw [h]
      rfl
    exact ⟨_, transform_eq h0⟩
  · have h0 : (lookupKV dkvs "doc").getD (Json.obj []) = Json.obj dockvs := by
      rw [h]
      rfl
    exact ⟨_, transform_eq h0⟩

theorem C1_transform_no_raise_witness :
    (lookupKV [(("doc" : String), Json.obj [("options", Json.str "nd")]),
        ("return", Json.str "x")] "doc" = none ∨
      ∃ dockvs, lookupKV [(("doc" : String), Json.obj [("options", Json.str "nd")]),
        ("return", Json.str "x")] "doc" = some (Json.obj dockvs)) ∧
    ∃ out, transform_doc_strings (Json.obj [("doc", Json.obj [("options", Json.str "nd")]),
      ("return", Json.str "x")]) = Except.ok out := by
  have h : lookupKV [(("doc" : String), Json.obj [("options", Json.str "nd")]),
      ("return", Json.str "x")] "doc" = none ∨
      ∃ dockvs, lookupKV [(("doc" : String), Json.obj [("options", Json.str "nd")]),
        ("return", Json.str "x")] "doc" = some (Json.obj dockvs) :=
    Or.inr ⟨[("options", Json.str "nd")], rfl⟩
  exact ⟨h, C1_transform_no_raise _ h⟩

/-- C2: evaluation of `dict_to_named_list` at the failing input
`{"a": {"x": 1}, "b": "not-a-dict"}`.  The claim (and the spec's stated
intent) is that the well-formed entry `"a"` is kept; the code's fallback
filters on `isinstance(key, dict)` — never true for string keys — and drops
everything, returning the empty list. -/
theorem C2_fallback_drops_wellformed_entry :
    dict_to_named_list
        [("a", Json.obj [("x", Json.num 1)]), ("b", Json.str "not-a-dict")] =
      [] := rfl

/-- C10: whenever some value of the mapping is not itself a mapping, the
`except TypeError` fallback of `dict_to_named_list` returns the empty list:
its filter keeps only entries whose key is a dict, which no string key is. -/
theorem C10_fallback_returns_empty (m : List (String × Json))
    (h : ∃ p ∈ m, p.2.isObj = false) : dict_to_named_list m = [] := by
  have hall : m.all (fun p => p.2.isObj) = false := by
    rw [List.all_eq_false]
    obtain ⟨p, hp, hpf⟩ := h
    exact ⟨p, hp, by simp [hpf]⟩
  simp [dict_to_named_list, hall, keyIsDict]

theorem C10_fallback_returns_empty_witness :
    (∃ p ∈ [(("opt1" : String), Json.str "not-a-dict")], p.2.isObj = false) ∧
    dict_to_named_list [("opt1", Json.str "not-a-dict")] = [] := by
  have h : ∃ p ∈ [(("opt1" : String), Json.str "not-a-dict")], p.2.isObj = false :=
    ⟨("opt1", Json.str "not-a-dict"), by simp, rfl⟩
  exact ⟨h, C10_fallback_returns_empty _ h⟩

/-- C5: applying the nested-table recursion to a record whose target field
already holds a list (the already-converted form) leaves the record
unchanged: the conversion only fires when the field holds a dict. -/
theorem C5_list_valued_field_noop (table_key : String)
    (kvs : List (String × Json)) (xs : List Json)
    (h : lookupKV kvs table_key = some (Json.arr xs)) :
    handle_nested_tables table_key (Json.obj kvs) = Json.obj kvs := by
  apply handle_nested_tables_skip
  intro sub hlk
  rw [h] at hlk
  cases hlk

theorem C5_list_valued_field_noop_witness :
    lookupKV [(("suboptions" : String),
        Json.arr [Json.obj [("name", Json.str "a")]])] "suboptions" =
      some (Json.arr [Json.obj [("name", Json.str "a")]]) ∧
    handle_nested_tables "suboptions"
        (Json.obj [("suboptions", Json.arr [Json.obj [("name", Json.str "a")]])]) =
      Json.obj [("suboptions", Json.arr [Json.obj [("name", Json.str "a")]])] :=
  ⟨rfl, C5_list_valued_field_noop "suboptions" _ _ rfl⟩

/-- C6 counterexample: a payload with `return` equal to `None` on which the
normalizer nevertheless raises, because its `doc` field is a non-dict; the
claim asserts no raise for every payload with `return` absent/None. -/
theorem C6_raises_despite_null_return :
    transform_doc_strings (Json.obj [("doc", Json.num 3), ("return", Json.null)]) =
      Except.error "AttributeError: doc has no attribute get" := rfl

/-- C6 (amended): provided the payload's `doc` field is absent or a mapping,
whenever `return` is absent, `None`, empty, or not a mapping, the normalizer
does not raise and leaves the `return` field exactly as it was. -/
theorem C6_return_untouched (dkvs dockvs : List (String × Json))
    (hdoc : (lookupKV dkvs "doc").getD (Json.obj []) = Json.obj dockvs)
    (hret : lookupKV dkvs "return" = none ∨
      lookupKV dkvs "return" = some Json.null ∨
      (∃ v, lookupKV dkvs "return" = some v ∧ v.isObj = false) ∨
      lookupKV dkvs "return" = some (Json.obj [])) :
    ∃ out, transform_doc_strings (Json.obj dkvs) = Except.ok (Json.obj out) ∧
      lookupKV out "return" = lookupKV dkvs "return" := by
  have hfr : lookupKV (applyOptions dkvs dockvs) "return" =
      lookupKV dkvs "return" :=
    applyOptions_frame _ _ (by decide)
  have hskip : applyReturn (applyOptions dkvs dockvs) =
      applyOptions dkvs dockvs := by
    apply applyReturn_skip
    intro rkvs hrk
    rw [hfr] at hrk
    rcases hret with h | h | ⟨v, hv, hvo⟩ | h
    · rw [h] at hrk; cases hrk
    · rw [h] at hrk; cases hrk
    · rw [hv] at hrk
      injection hrk with h2
      subst h2
      simp [Json.isObj] at hvo
    · rw [h] at hrk
      injection hrk with h2
      injection h2 with h3
      exact h3.symm
  exact ⟨_, transform_eq hdoc, by rw [hskip, hfr]⟩

theorem C6_return_untouched_witness :
    ((lookupKV [(("return" : String), Json.null)] "doc").getD (Json.obj []) =
      Json.obj []) ∧
    (∃ out, transform_doc_strings (Json.obj [("return", Json.null)]) =
      Except.ok (Json.obj out) ∧
      lookupKV out "return" = lookupKV [(("return" : String), Json.null)] "return") :=
  ⟨rfl, C6_return_untouched [("return", Json.null)] [] rfl
    (Or.inr (Or.inl rfl))⟩

/-- Frame of the nested-table recursion: every record field other than the
table key keeps its value. -/
theorem handle_nested_tables_frame (table_key : String)
    (kvs : List (String × Json)) (k : String) (hk : k ≠ table_key) :
    ∃ kvs2, handle_nested_tables table_key (Json.obj kvs) = Json.obj kvs2 ∧
      lookupKV kvs2 k = lookupKV kvs k := by
  cases hl : lookupKV kvs table_key with
  | some v =>
    cases v with
    | obj sub =>
      exact ⟨_, handle_nested_tables_conv hl, lookupKV_setKV_ne _ _ hk⟩
    | null =>
      exact ⟨kvs, handle_nested_tables_skip (fun sub hlk => by
        rw [hl] at hlk; cases hlk), rfl⟩
    | bool b =>
      exact ⟨kvs, handle_nested_tables_skip (fun sub hlk => by
        rw [hl] at hlk; cases hlk), rfl⟩
    | num n =>
      exact ⟨kvs, handle_nested_tables_skip (fun sub hlk => by
        rw [hl] at hlk; cases hlk), rfl⟩
    | str s =>
      exact ⟨kvs, handle_nested_tables_skip (fun sub hlk => by
        rw [hl] at hlk; cases hlk), rfl⟩
    | arr xs =>
      exact ⟨kvs, handle_nested_tables_skip (fun sub hlk => by
        rw [hl] at hlk; cases hlk), rfl⟩
  | none =>
    exact ⟨kvs, handle_nested_tables_skip (fun sub hlk => by
      rw [hl] at hlk; cases hlk), rfl⟩

/-- C7: the normalizer's frame.  (1) Every payload field other than `doc`
and `return` is unchanged; (2) every field of the `doc` mapping other than
`options` is unchanged; (3) within a converted record, every key other than
the nested-table site keeps its original value. -/
theorem C7_frame (dkvs dockvs out : List (String × Json))
    (hdoc : (lookupKV dkvs "doc").getD (Json.obj []) = Json.obj dockvs)
    (hout : transform_doc_strings (Json.obj dkvs) = Except.ok (Json.obj out)) :
    (∀ k, k ≠ "doc" → k ≠ "return" → lookupKV out k = lookupKV dkvs k) ∧
    (∀ dockvs0, lookupKV dkvs "doc" = some (Json.obj dockvs0) →
      ∃ dockvs2, lookupKV out "doc" = some (Json.obj dockvs2) ∧
        ∀ k, k ≠ "options" → lookupKV dockvs2 k = lookupKV dockvs0 k) ∧
    (∀ table_key kvs k, k ≠ table_key →
      ∃ kvs2, handle_nested_tables table_key (Json.obj kvs) = Json.obj kvs2 ∧
        lookupKV kvs2 k = lookupKV kvs k) := by
  have he := transform_eq hdoc
  rw [he] at hout
  injection hout with hout
  injection hout with hout
  subst hout
  refine ⟨?_, ?_, ?_⟩
  · intro k hk1 hk2
    rw [applyReturn_frame _ hk2, applyOptions_frame _ _ hk1]
  · intro dockvs0 hdoc0
    have hdd : dockvs = dockvs0 := by
      rw [hdoc0] at hdoc
      injection hdoc with h2
      exact h2.symm
    subst hdd
    rw [applyReturn_frame _ (by decide)]
    rw [applyOptions]
    split
    next opts hopts =>
      split
      next hhas =>
        refine ⟨_, lookupKV_setKV_self _ _ _, ?_⟩
        intro k hk
        rw [lookupKV_setKV_ne _ _ hk]
      next hhas =>
        exact ⟨dockvs, hdoc0, fun k hk => rfl⟩
    next =>
      exact ⟨dockvs, hdoc0, fun k hk => rfl⟩
  · exact handle_nested_tables_frame

theorem C7_frame_witness :
    ((lookupKV [(("x" : String), Json.num 1)] "doc").getD (Json.obj []) =
      Json.obj []) ∧
    (transform_doc_strings (Json.obj [("x", Json.num 1)]) =
      Except.ok (Json.obj [("x", Json.num 1)])) ∧
    ((∀ k, k ≠ "doc" → k ≠ "return" →
        lookupKV [(("x" : String), Json.num 1)] k =
          lookupKV [(("x" : String), Json.num 1)] k) ∧
      (∀ dockvs0, lookupKV [(("x" : String), Json.num 1)] "doc" =
          some (Json.obj dockvs0) →
        ∃ dockvs2, lookupKV [(("x" : String), Json.num 1)] "doc" =
            some (Json.obj dockvs2) ∧
          ∀ k, k ≠ "options" → lookupKV dockvs2 k = lookupKV dockvs0 k) ∧
      (∀ table_key kvs k, k ≠ table_key →
        ∃ kvs2, handle_nested_tables table_key (Json.obj kvs) = Json.obj kvs2 ∧
          lookupKV kvs2 k = lookupKV kvs k)) :=
  ⟨rfl, rfl, C7_frame [("x", Json.num 1)] [] [("x", Json.num 1)] rfl rfl⟩

/-- C8: in every record built by `dict_to_named_list`, `name` is written
first (the record's first entry is the `name` entry); and when a source
value carries its own `name` field the later `**`-write wins: the record's
`name` value is the value's own `name`, not the promoted outer key. -/
theorem C8_name_first_later_write_wins (m : List (String × Json)) :
    (∀ r ∈ dict_to_named_list m,
      ∃ v rest, r = Json.obj (("name", v) :: rest)) ∧
    (∀ key vkvs w, (key, Json.obj vkvs) ∈ m → (∀ p ∈ m, p.2.isObj = true) →
      keysNodup vkvs = true → lookupKV vkvs "name" = some w →
      Json.obj (mkNamedRecord key vkvs) ∈ dict_to_named_list m ∧
      lookupKV (mkNamedRecord key vkvs) "name" = some w) := by
  constructor
  · intro r hr
    rw [dict_to_named_list] at hr
    split at hr
    · rcases List.mem_map.mp hr with ⟨p, hp, rfl⟩
      obtain ⟨v, rest, hvr⟩ := mkNamedRecord_head p.1 p.2.getObj
      exact ⟨v, rest, by rw [hvr]⟩
    · rcases List.mem_map.mp hr with ⟨p, hp, rfl⟩
      obtain ⟨v, rest, hvr⟩ := mkNamedRecord_head p.1 p.2.getObj
      exact ⟨v, rest, by rw [hvr]⟩
  · intro key vkvs w hmem hall hnd hw
    constructor
    · rw [dict_to_named_list_allObj (by rw [List.all_eq_true]; exact hall)]
      exact List.mem_map_of_mem _ hmem
    · rw [mkNamedRecord_lookup key hnd]
      simp [hw]

theorem C8_name_first_later_write_wins_witness :
    (∃ v rest, Json.obj (mkNamedRecord "k"
        [("a", Json.num 1), ("name", Json.str "v")]) =
      Json.obj (("name", v) :: rest)) ∧
    (Json.obj (mkNamedRecord "k" [("a", Json.num 1), ("name", Json.str "v")]) ∈
      dict_to_named_list
        [("k", Json.obj [("a", Json.num 1), ("name", Json.str "v")])] ∧
    lookupKV (mkNamedRecord "k" [("a", Json.num 1), ("name", Json.str "v")])
      "name" = some (Json.str "v")) := by
  have h := C8_name_first_later_write_wins
    [("k", Json.obj [("a", Json.num 1), ("name", Json.str "v")])]
  have hmem : Json.obj (mkNamedRecord "k"
      [("a", Json.num 1), ("name", Json.str "v")]) ∈
      dict_to_named_list
        [("k", Json.obj [("a", Json.num 1), ("name", Json.str "v")])] :=
    List.mem_singleton.mpr rfl
  refine ⟨h.1 _ hmem, h.2 "k" _ (Json.str "v")
    (List.mem_singleton.mpr rfl) ?_ rfl rfl⟩
  intro p hp
  rw [List.mem_singleton.mp hp]
  rfl

/-- C3 counterexample: a depth-0 mapping whose single value is a mapping
carrying its own `name` field.  The produced record's `name` is the value's
`"other"`, not the original key `"k"` claimed by C3. -/
theorem C3_name_not_key_cex :
    dict_to_named_list [("k", Json.obj [("name", Json.str "other")])] =
      [Json.obj [("name", Json.str "other")]] ∧
    Json.str "other" ≠ Json.str "k" := by
  refine ⟨rfl, ?_⟩
  intro h
  injection h with h2
  exact absurd h2 (by decide)

/-- C3 (amended): for a mapping whose values are all mappings (with unique
keys, as every dict has), `dict_to_named_list` returns one record per key in
iteration order (no sorting): the record at index `i` has `name` equal to the
original key — unless the value carries its own `name` field, which then
wins — and carries every field of the original value unchanged. -/
theorem C3_depth0_shape (m : List (String × Json))
    (hall : ∀ p ∈ m, p.2.isObj = true)
    (hnd : ∀ p ∈ m, keysNodup p.2.getObj = true) :
    (dict_to_named_list m).length = m.length ∧
    ∀ i (hi : i < m.length),
      ∃ rec, (dict_to_named_list m)[i]? = some (Json.obj rec) ∧
        lookupKV rec "name" =
          some ((lookupKV m[i].2.getObj "name").getD (Json.str m[i].1)) ∧
        ∀ k, k ≠ "name" → lookupKV rec k = lookupKV m[i].2.getObj k := by
  have hd := dict_to_named_list_allObj (m := m)
    (by rw [List.all_eq_true]; exact hall)
  constructor
  · rw [hd, List.length_map]
  · intro i hi
    have hmem : m[i] ∈ m := List.getElem_mem hi
    refine ⟨mkNamedRecord m[i].1 m[i].2.getObj, ?_, ?_, ?_⟩
    · rw [hd, List.getElem?_map, List.getElem?_eq_getElem hi]
      rfl
    · rw [mkNamedRecord_lookup _ (hnd _ hmem)]
      simp
    · intro k hk
      rw [mkNamedRecord_lookup _ (hnd _ hmem), if_neg hk]

theorem C3_depth0_shape_witness :
    (∀ p ∈ [(("k1" : String), Json.obj [("d", Json.str "x")])],
      p.2.isObj = true) ∧
    ((dict_to_named_list [("k1", Json.obj [("d", Json.str "x")])]).length =
      [(("k1" : String), Json.obj [("d", Json.str "x")])].length ∧
    ∀ i (hi : i < [(("k1" : String), Json.obj [("d", Json.str "x")])].length),
      ∃ rec, (dict_to_named_list [("k1", Json.obj [("d", Json.str "x")])])[i]? =
          some (Json.obj rec) ∧
        lookupKV rec "name" =
          some ((lookupKV [(("k1" : String), Json.obj [("d", Json.str "x")])][i].2.getObj
            "name").getD
            (Json.str [(("k1" : String), Json.obj [("d", Json.str "x")])][i].1)) ∧
        ∀ k, k ≠ "name" →
          lookupKV rec k =
            lookupKV [(("k1" : String), Json.obj [("d", Json.str "x")])][i].2.getObj k) := by
  have hall : ∀ p ∈ [(("k1" : String), Json.obj [("d", Json.str "x")])],
      p.2.isObj = true := by
    intro p hp
    rw [List.mem_singleton.mp hp]
    rfl
  have hnd : ∀ p ∈ [(("k1" : String), Json.obj [("d", Json.str "x")])],
      keysNodup p.2.getObj = true := by
    intro p hp
    rw [List.mem_singleton.mp hp]
    rfl
  exact ⟨hall, C3_depth0_shape _ hall hnd⟩

/-- C4: the normalizer turns the spec's example `doc.options` tree into the
expected nested lists with `name` set at each level; and in general, for
every options/suboptions tree nested to three levels (`isTree` with depth
bound 2 below the top), the transform produces the expected nested
list-of-records form at all three levels. -/
theorem C4_three_level_nesting :
    (transform_doc_strings (Json.obj [("doc", Json.obj [("options", Json.obj
        [("opt1", Json.obj [("description", Json.str "x")]),
         ("opt2", Json.obj [("description", Json.str "y"),
           ("suboptions", Json.obj [("sub1",
             Json.obj [("description", Json.str "z")])])])])])]) =
      Except.ok (Json.obj [("doc", Json.obj [("options", Json.arr
        [Json.obj [("name", Json.str "opt1"), ("description", Json.str "x")],
         Json.obj [("name", Json.str "opt2"), ("description", Json.str "y"),
           ("suboptions", Json.arr [Json.obj [("name", Json.str "sub1"),
             ("description", Json.str "z")]])]])])])) ∧
    (∀ opts, isTree "suboptions" 2 opts = true →
      (dict_to_named_list opts).map (handle_nested_tables "suboptions") =
        specNamedList "suboptions" 2 opts) := by
  constructor
  · have h1 : transform_doc_strings (Json.obj [("doc", Json.obj [("options",
        Json.obj [("opt1", Json.obj [("description", Json.str "x")]),
          ("opt2", Json.obj [("description", Json.str "y"),
            ("suboptions", Json.obj [("sub1",
              Json.obj [("description", Json.str "z")])])])])])]) =
        Except.ok (Json.obj [("doc", Json.obj [("options",
          convertTable "suboptions"
            [("opt1", Json.obj [("description", Json.str "x")]),
             ("opt2", Json.obj [("description", Json.str "y"),
               ("suboptions", Json.obj [("sub1",
                 Json.obj [("description", Json.str "z")])])])])])]) := rfl
    rw [convertTable_spec "suboptions" (by decide) 2 _ (by decide)] at h1
    exact h1
  · exact fun opts h => dtnl_handle_spec "suboptions" (by decide) 2 opts h

theorem C4_three_level_nesting_witness :
    (isTree "suboptions" 2
        [("opt1", Json.obj [("description", Json.str "x")]),
         ("opt2", Json.obj [("description", Json.str "y"),
           ("suboptions", Json.obj [("sub1",
             Json.obj [("description", Json.str "z")])])])] = true) ∧
    ((dict_to_named_list
        [("opt1", Json.obj [("description", Json.str "x")]),
         ("opt2", Json.obj [("description", Json.str "y"),
           ("suboptions", Json.obj [("sub1",
             Json.obj [("description", Json.str "z")])])])]).map
        (handle_nested_tables "suboptions") =
      specNamedList "suboptions" 2
        [("opt1", Json.obj [("description", Json.str "x")]),
         ("opt2", Json.obj [("description", Json.str "y"),
           ("suboptions", Json.obj [("sub1",
             Json.obj [("description", Json.str "z")])])])]) :=
  ⟨by decide, C4_three_level_nesting.2 _ (by decide)⟩

theorem length_insertSorted (x : String) :
    ∀ l : List String, (insertSorted x l).length = l.length + 1 := by
  intro l
  induction l with
  | nil => rfl
  | cons y ys ih =>
    rw [insertSorted]
    split
    · simp
    · simp [ih]

theorem length_sortStrings :
    ∀ l : List String, (sortStrings l).length = l.length := by
  intro l
  induction l with
  | nil => rfl
  | cons x xs ih =>
    rw [sortStrings, length_insertSorted, ih, List.length_cons]

theorem sortedKeys_isEmpty {m : List (String × Json)} :
    (sortedKeys m).isEmpty = true ↔ m = [] := by
  rw [List.isEmpty_iff, ← List.length_eq_zero, sortedKeys, length_sortStrings,
    List.length_map, List.length_eq_zero]

theorem loadLoop_lookup_none (lp : String → List (String × Json))
    (fd : String → List String → List (String × Json)) (pt : String)
    (hlp : lp pt = []) :
    ∀ (pts : List String) (docs out : List (String × List (String × Json))),
      loadLoop lp fd pts docs = Except.ok out →
      lookupKV docs pt = none → lookupKV out pt = none := by
  intro pts
  induction pts with
  | nil =>
    intro docs out h hacc
    injection h with h
    subst h
    exact hacc
  | cons pt2 rest ih =>
    intro docs out h hacc
    simp only [loadLoop] at h
    split at h
    · exact ih _ _ h hacc
    next hcond =>
      split at h
      next data hdata =>
        apply ih _ _ h
        have hne : pt2 ≠ pt := by
          intro he
          subst he
          exact hcond (sortedKeys_isEmpty.mpr hlp)
        rw [lookupKV_setKV_ne _ _ (Ne.symm hne)]
        exact hacc
      next e hdata => cases h

theorem loadLoop_lookup_keeps (lp : String → List (String × Json))
    (fd : String → List String → List (String × Json)) (pt : String)
    (d : List (String × Json))
    (hproc : process_doc_strings (fd pt (sortedKeys (lp pt))) = Except.ok d) :
    ∀ (pts : List String) (docs out : List (String × List (String × Json))),
      loadLoop lp fd pts docs = Except.ok out →
      lookupKV docs pt = some d → lookupKV out pt = some d := by
  intro pts
  induction pts with
  | nil =>
    intro docs out h hacc
    injection h with h
    subst h
    exact hacc
  | cons pt2 rest ih =>
    intro docs out h hacc
    simp only [loadLoop] at h
    split at h
    · exact ih _ _ h hacc
    next hcond =>
      split at h
      next data hdata =>
        apply ih _ _ h
        by_cases hne : pt2 = pt
        · subst hne
          rw [hproc] at hdata
          injection hdata with hdata
          subst hdata
          exact lookupKV_setKV_self _ _ _
        · rw [lookupKV_setKV_ne _ _ (fun he => hne he.symm)]
          exact hacc
      next e hdata => cases h

theorem loadLoop_mem (lp : String → List (String × Json))
    (fd : String → List String → List (String × Json)) (pt : String)
    (hlp : lp pt ≠ []) :
    ∀ (pts : List String) (docs out : List (String × List (String × Json))),
      pt ∈ pts → loadLoop lp fd pts docs = Except.ok out →
      ∃ d, process_doc_strings (fd pt (sortedKeys (lp pt))) = Except.ok d ∧
        lookupKV out pt = some d := by
  intro pts
  induction pts with
  | nil =>
    intro docs out hmem h
    simp at hmem
  | cons pt2 rest ih =>
    intro docs out hmem h
    by_cases hpt : pt2 = pt
    · subst hpt
      simp only [loadLoop] at h
      have hcond : ¬((sortedKeys (lp pt2)).isEmpty = true) := by
        intro hc
        exact hlp (sortedKeys_isEmpty.mp hc)
      rw [if_neg hcond] at h
      cases hdata : process_doc_strings (fd pt2 (sortedKeys (lp pt2))) with
      | ok data =>
        rw [hdata] at h
        exact ⟨data, rfl,
          loadLoop_lookup_keeps lp fd pt2 data hdata rest _ _ h
            (lookupKV_setKV_self _ _ _)⟩
      | error e =>
        rw [hdata] at h
        cases h
    · have hmem2 : pt ∈ rest := by
        rcases List.mem_cons.mp hmem with h1 | h2
        · exact absurd h1.symm hpt
        · exact h2
      simp only [loadLoop] at h
      split at h
      · exact ih _ _ hmem2 h
      · split at h
        next data hdata => exact ih _ _ hmem2 h
        next e hdata => cases h

/-- C9: in the driving loop of `load`, a plugin type whose `list_plugins`
result is empty is absent from the final output (not present with an empty
value); a plugin type with a non-empty plugin list is present, keyed to the
processed result of `fetch_docs` called on the sorted identifier list, with
the normalizer applied to every returned payload. -/
theorem C9_load_loop (pts : List String)
    (lp : String → List (String × Json))
    (fd : String → List String → List (String × Json))
    (out : List (String × List (String × Json)))
    (hout : load true pts lp fd = Except.ok out) :
    (∀ pt, lp pt = [] → lookupKV out pt = none) ∧
    (∀ pt, pt ∈ pts → lp pt ≠ [] →
      ∃ d, process_doc_strings (fd pt (sortedKeys (lp pt))) = Except.ok d ∧
        lookupKV out pt = some d) := by
  rw [load, if_pos rfl] at hout
  constructor
  · intro pt hlp
    exact loadLoop_lookup_none lp fd pt hlp pts [] out hout rfl
  · intro pt hmem hlp
    exact loadLoop_mem lp fd pt hlp pts [] out hmem hout

theorem C9_load_loop_witness :
    (load true ["module", "filter"]
        (fun s => if s = "module" then [("a.b.c", Json.obj [])] else [])
        (fun _ _ => [("a.b.c", Json.obj [("doc", Json.obj [])])]) =
      Except.ok [("module", [("a.b.c", Json.obj [("doc", Json.obj [])])])]) ∧
    ((∀ pt, (if pt = "module" then [(("a.b.c" : String), Json.obj [])] else []) = [] →
        lookupKV [(("module" : String),
          [(("a.b.c" : String), Json.obj [("doc", Json.obj [])])])] pt = none) ∧
      (∀ pt, pt ∈ ["module", "filter"] →
        (if pt = "module" then [(("a.b.c" : String), Json.obj [])] else []) ≠ [] →
        ∃ d, process_doc_strings
            ((fun (_ : String) (_ : List String) =>
              [("a.b.c", Json.obj [("doc", Json.obj [])])]) pt
              (sortedKeys (if pt = "module" then [("a.b.c", Json.obj [])] else []))) =
            Except.ok d ∧
          lookupKV [(("module" : String),
            [(("a.b.c" : String), Json.obj [("doc", Json.obj [])])])] pt = some d)) :=
  ⟨rfl, C9_load_loop ["module", "filter"]
    (fun s => if s = "module" then [("a.b.c", Json.obj [])] else [])
    (fun _ _ => [("a.b.c", Json.obj [("doc", Json.obj [])])])
    [("module", [("a.b.c", Json.obj [("doc", Json.obj [])])])] rfl⟩
